import Mathlib

/-!
Verification of the permutation-invariant set-encoder design described in the
repository's specification, together with the training-data construction loop
of the tutorial notebook `tutorials/14_iid_data_and_permutation_invariant_embeddings.ipynb`.

The set encoder itself (`PermutationInvariantEmbedding` / `FCEmbedding`) is part
of the `sbi` library and its implementation is not present in this slice of the
repository; following the specification, its data model and operations are
modelled here from the spec's words.  Feature vectors are modelled as lists of
rationals (an exact model of the numeric vectors; with exact arithmetic,
"equality within floating-point tolerance" becomes exact equality).  Absence of
a trial (the NaN sentinel fill of the source) is modelled by an explicit
presence mask, as §3 and §9 of the spec describe.
-/

namespace SetEncoder

/-- Modelled from the spec: the aggregation mode of the aggregator stage
("a commutative, associative reduction (sum or mean)", spec §4.2). -/
inductive Agg where
  | sum : Agg
  | mean : Agg
deriving DecidableEq

/-- Modelled from the spec: the error taxonomy of §7 for the missing
encoder implementation (`ShapeMismatchError`, `InvalidInputError`). -/
inductive EncodeError where
  | ShapeMismatchError : EncodeError
  | InvalidInputError : EncodeError
deriving DecidableEq

/-- Modelled from the spec: the configuration and learnable state of the
missing set encoder (§2, §4): a per-element encoder `trial_net` mapping a
`feature_dim`-vector to a `latent_dim`-vector, applied with identical
parameters to every trial, an aggregation mode, and an optional
post-processing network `post_net`.  The parametric networks are modelled
as the functions they denote at the current (fixed) parameters. -/
structure EncoderConfig where
  feature_dim : ℕ
  latent_dim : ℕ
  trial_net : List ℚ → List ℚ
  aggregate : Agg
  post_net : List ℚ → List ℚ

/-- Modelled from the spec: a padded trial set (§3): an ordered sequence of up
to `max_trials` feature vectors laid out with fill values in absent positions,
together with a presence mask flagging which positions hold real data. -/
structure PaddedTrialSet where
  values : List (List ℚ)
  present : List Bool

/-- The list of present trials of a padded trial set, in order: the values at
positions flagged by the presence mask. -/
def presentTrials (S : PaddedTrialSet) : List (List ℚ) :=
  ((S.values.zip S.present).filter (fun p => p.2)).map Prod.fst

/-- The count of present trials reported by the presence mask. -/
def countPresent (S : PaddedTrialSet) : ℕ :=
  (presentTrials S).length

/-- Coordinatewise sum of a collection of `d`-dimensional vectors (the
reduction's identity element, the zero vector, when the collection is empty). -/
def vecSum (d : ℕ) (l : List (List ℚ)) : List ℚ :=
  (List.range d).map (fun i => (l.map (fun v => v.getD i 0)).sum)

/-- Scaling of a vector by a rational constant. -/
def vecScale (c : ℚ) (v : List ℚ) : List ℚ :=
  v.map (fun x => c * x)

/-- The pooled vector of the aggregator (spec §4.2): sum, or arithmetic mean
(sum divided by the count of present trials), of the per-trial embeddings. -/
def pool (cfg : EncoderConfig) (k : ℕ) (embs : List (List ℚ)) : List ℚ :=
  match cfg.aggregate with
  | Agg.sum => vecSum cfg.latent_dim embs
  | Agg.mean => vecScale (1 / (k : ℚ)) (vecSum cfg.latent_dim embs)

/-- Modelled from the spec: the forward evaluation of the missing set encoder
(§2, §4, §7).  Input validation first: the presence mask must have the same
length as the trial sequence (`InvalidInputError`, §7); every present trial
must have feature dimension `feature_dim` (`ShapeMismatchError`, §4.2/§4.4);
a mean reduction with zero present trials is rejected (`InvalidInputError`,
§4.2).  Then the per-element encoder is applied independently to each present
trial, the results are aggregated, and the post-processing network is applied
to the pooled vector.  Errors surface to the caller unchanged (§7). -/
def encode (cfg : EncoderConfig) (S : PaddedTrialSet) : Except EncodeError (List ℚ) :=
  if S.present.length ≠ S.values.length then
    Except.error EncodeError.InvalidInputError
  else if ¬ (presentTrials S).all (fun v => v.length == cfg.feature_dim) then
    Except.error EncodeError.ShapeMismatchError
  else if cfg.aggregate = Agg.mean ∧ countPresent S = 0 then
    Except.error EncodeError.InvalidInputError
  else
    Except.ok (cfg.post_net (pool cfg (countPresent S) ((presentTrials S).map cfg.trial_net)))

/-- Modelled from the spec: padding a trial set to length `m` with a sentinel
fill vector in the absent (masked-off) trailing positions (§3, §8). -/
def pad (S : PaddedTrialSet) (m : ℕ) (fill : List ℚ) : PaddedTrialSet :=
  { values := S.values ++ List.replicate (m - S.values.length) fill
    present := S.present ++ List.replicate (m - S.present.length) false }

/-- Modelled from the spec: a forward evaluation as a state transition on the
encoder's parameter state (§3 lifecycle, §5): it returns the embedding (or
error) together with the parameter state after the evaluation. -/
def forwardEval (cfg : EncoderConfig) (S : PaddedTrialSet) :
    Except EncodeError (List ℚ) × EncoderConfig :=
  (encode cfg S, cfg)

end SetEncoder

namespace SetEncoder

/-! ### Helper lemmas about the aggregation -/

theorem vecSum_perm (d : ℕ) {l l' : List (List ℚ)} (h : l.Perm l') :
    vecSum d l = vecSum d l' := by
  unfold vecSum
  refine List.map_congr_left (fun i _ => ?_)
  exact (h.map (fun v => v.getD i 0)).sum_eq

theorem pool_perm (cfg : EncoderConfig) (k : ℕ) {l l' : List (List ℚ)}
    (h : l.Perm l') : pool cfg k l = pool cfg k l' := by
  unfold pool
  cases cfg.aggregate <;> rw [vecSum_perm cfg.latent_dim h]

/-- One-step unfolding of `encode` for a well-formed trial set (mask length
matches the value-sequence length). -/
theorem encode_eq_def (cfg : EncoderConfig) (S : PaddedTrialSet)
    (hw : S.present.length = S.values.length) :
    encode cfg S =
      if ¬ (presentTrials S).all (fun v => v.length == cfg.feature_dim) then
        Except.error EncodeError.ShapeMismatchError
      else if cfg.aggregate = Agg.mean ∧ countPresent S = 0 then
        Except.error EncodeError.InvalidInputError
      else
        Except.ok (cfg.post_net (pool cfg (countPresent S)
          ((presentTrials S).map cfg.trial_net))) := by
  unfold encode
  rw [if_neg (by omega)]

/-- The encoder output depends on the trial set only through the multiset of
present trials: any two well-formed trial sets whose present trials are
permutations of each other encode identically. -/
theorem encode_eq_of_perm (cfg : EncoderConfig) {S T : PaddedTrialSet}
    (hS : S.present.length = S.values.length)
    (hT : T.present.length = T.values.length)
    (hp : (presentTrials S).Perm (presentTrials T)) :
    encode cfg S = encode cfg T := by
  have hc : countPresent S = countPresent T := hp.length_eq
  have hallb : (presentTrials S).all (fun v => v.length == cfg.feature_dim)
      = (presentTrials T).all (fun v => v.length == cfg.feature_dim) := by
    rw [Bool.eq_iff_iff, List.all_eq_true, List.all_eq_true]
    exact ⟨fun h x hx => h x (hp.mem_iff.mpr hx),
           fun h x hx => h x (hp.mem_iff.mp hx)⟩
  have hpool : pool cfg (countPresent S) ((presentTrials S).map cfg.trial_net)
      = pool cfg (countPresent T) ((presentTrials T).map cfg.trial_net) := by
    rw [hc]
    exact pool_perm cfg _ (hp.map cfg.trial_net)
  rw [encode_eq_def cfg S hS, encode_eq_def cfg T hT, hallb, hpool, hc]

/-- Padding with masked-off fill positions does not change the present trials. -/
theorem presentTrials_pad (S : PaddedTrialSet) (m : ℕ) (fill : List ℚ)
    (hw : S.present.length = S.values.length) :
    presentTrials (pad S m fill) = presentTrials S := by
  unfold presentTrials pad
  simp only
  rw [hw, List.zip_append (by rw [hw]), List.zip_replicate, List.filter_append,
      List.filter_replicate]
  simp

theorem pad_wf (S : PaddedTrialSet) (m : ℕ) (fill : List ℚ)
    (hw : S.present.length = S.values.length) :
    (pad S m fill).present.length = (pad S m fill).values.length := by
  simp [pad, hw]

/-- Padding invariance (helper form): encoding a padded trial set equals
encoding the original one. -/
theorem encode_pad_aux (cfg : EncoderConfig) (S : PaddedTrialSet) (m : ℕ)
    (fill : List ℚ) (hw : S.present.length = S.values.length) :
    encode cfg (pad S m fill) = encode cfg S := by
  refine encode_eq_of_perm cfg (pad_wf S m fill hw) hw ?_
  rw [presentTrials_pad S m fill hw]

/-- Mean aggregation with zero present trials is rejected (helper form). -/
theorem encode_mean_zero_aux (cfg : EncoderConfig) (S : PaddedTrialSet)
    (hag : cfg.aggregate = Agg.mean) (h0 : countPresent S = 0) :
    encode cfg S = Except.error EncodeError.InvalidInputError := by
  unfold encode
  by_cases hb : S.present.length ≠ S.values.length
  · rw [if_pos hb]
  · have hnil : presentTrials S = [] := List.length_eq_zero.mp h0
    rw [if_neg hb, if_neg (by simp [hnil]), if_pos ⟨hag, h0⟩]

/-- A trial set of `k` identical present trials with value `v` and no padding. -/
def iidTrialSet (k : ℕ) (v : List ℚ) : PaddedTrialSet :=
  { values := List.replicate k v, present := List.replicate k true }

theorem presentTrials_iid (k : ℕ) (v : List ℚ) :
    presentTrials (iidTrialSet k v) = List.replicate k v := by
  unfold presentTrials iidTrialSet
  simp [List.zip_replicate, List.filter_replicate]

theorem vecSum_replicate (d k : ℕ) (e : List ℚ) :
    vecSum d (List.replicate k e)
      = (List.range d).map (fun i => (k : ℚ) * e.getD i 0) := by
  unfold vecSum
  refine List.map_congr_left (fun i _ => ?_)
  rw [List.map_replicate, List.sum_replicate, nsmul_eq_mul]

theorem getD_range_map (v : List ℚ) :
    (List.range v.length).map (fun i => v.getD i 0) = v := by
  refine List.ext_get (by simp) (fun n h₁ h₂ => ?_)
  simp [List.getD_eq_getElem?_getD, List.getElem?_eq_getElem h₂]

/-- Mean aggregation of `k ≠ 0` identical present trials recovers the
per-element encoding of the repeated trial. -/
theorem encode_iid_aux (cfg : EncoderConfig) (k : ℕ) (v : List ℚ) (hk : k ≠ 0)
    (hfd : v.length = cfg.feature_dim) (hag : cfg.aggregate = Agg.mean)
    (hlen : (cfg.trial_net v).length = cfg.latent_dim) :
    encode cfg (iidTrialSet k v) = Except.ok (cfg.post_net (cfg.trial_net v)) := by
  have hwf : (iidTrialSet k v).present.length = (iidTrialSet k v).values.length := by
    simp [iidTrialSet]
  have hcount : countPresent (iidTrialSet k v) = k := by
    rw [countPresent, presentTrials_iid, List.length_replicate]
  rw [encode_eq_def cfg _ hwf, presentTrials_iid, hcount]
  rw [if_neg (by simp [List.all_eq_true, hfd]), if_neg (by rintro ⟨_, h0⟩; exact hk h0)]
  congr 1
  rw [List.map_replicate]
  rw [show pool cfg k (List.replicate k (cfg.trial_net v))
        = vecScale (1 / (k : ℚ)) (vecSum cfg.latent_dim
            (List.replicate k (cfg.trial_net v))) by rw [pool, hag]]
  rw [vecSum_replicate, ← hlen, vecScale, List.map_map]
  rw [show ((fun x => 1 / (k : ℚ) * x) ∘ fun i => (k : ℚ) * (cfg.trial_net v).getD i 0)
        = fun i => (cfg.trial_net v).getD i 0 by
    funext i
    have hk' : (k : ℚ) ≠ 0 := Nat.cast_ne_zero.mpr hk
    field_simp]
  rw [getD_range_map (cfg.trial_net v)]

/-! ### The claims -/

/-- C1. Permutation invariance: for every pair of well-formed trial sets whose
(value, presence) sequences are permutations of each other — in particular for
every permutation of the present trials of one trial set — the encoder output
is identical (exact equality, hence equality within any tolerance, in this
exact-arithmetic model). -/
theorem encode_permutation_invariant (cfg : EncoderConfig) (S T : PaddedTrialSet)
    (hS : S.present.length = S.values.length)
    (hT : T.present.length = T.values.length)
    (hperm : (S.values.zip S.present).Perm (T.values.zip T.present)) :
    encode cfg S = encode cfg T := by
  refine encode_eq_of_perm cfg hS hT ?_
  unfold presentTrials
  exact (hperm.filter (fun p => p.2)).map Prod.fst

/-- C2. Padding invariance: for every well-formed trial set `S` and every
padding length `m`, encoding `S` padded with sentinel fill to length `m`
equals encoding `S`; hence the same present trials padded to `max_trials = 20`
and to `max_trials = 10` produce the same embedding. -/
theorem encode_padding_invariant (cfg : EncoderConfig) (S : PaddedTrialSet)
    (m₁ m₂ : ℕ) (fill : List ℚ) (hw : S.present.length = S.values.length) :
    encode cfg (pad S m₁ fill) = encode cfg S ∧
    encode cfg (pad S m₁ fill) = encode cfg (pad S m₂ fill) := by
  refine ⟨encode_pad_aux cfg S m₁ fill hw, ?_⟩
  rw [encode_pad_aux cfg S m₁ fill hw, encode_pad_aux cfg S m₂ fill hw]

/-- C3. Masking correctness: the encoder output depends only on the present
trials (absent positions contribute nothing to the aggregation regardless of
their fill value), and the mean aggregation divides the coordinatewise sum of
the present per-trial embeddings by the count of present trials, not by the
padded length. -/
theorem encode_masking_correct (cfg : EncoderConfig) (S T : PaddedTrialSet)
    (hS : S.present.length = S.values.length)
    (hT : T.present.length = T.values.length)
    (hpres : presentTrials S = presentTrials T) :
    encode cfg S = encode cfg T ∧
    (cfg.aggregate = Agg.mean →
      (presentTrials S).all (fun v => v.length == cfg.feature_dim) = true →
      countPresent S ≠ 0 →
      encode cfg S = Except.ok (cfg.post_net (vecScale (1 / (countPresent S : ℚ))
        (vecSum cfg.latent_dim ((presentTrials S).map cfg.trial_net))))) := by
  constructor
  · exact encode_eq_of_perm cfg hS hT (by rw [hpres])
  · intro hag hall h0
    rw [encode_eq_def cfg S hS, if_neg (by rw [hall]; simp),
        if_neg (by rintro ⟨_, hc⟩; exact h0 hc)]
    rw [show pool cfg (countPresent S) ((presentTrials S).map cfg.trial_net)
          = vecScale (1 / (countPresent S : ℚ)) (vecSum cfg.latent_dim
              ((presentTrials S).map cfg.trial_net)) by rw [pool, hag]]

/-- C4. End-to-end scenario: with `feature_dim = 2`, mean aggregation and an
identity post-processing stage, a set of 5 present trials all equal to `[0,0]`
yields the per-element encoding of `[0,0]` as pooled output, whether the set
is padded to length 10 or to length 20. -/
theorem encode_iid_scenario (cfg : EncoderConfig) (fill : List ℚ)
    (hfd : cfg.feature_dim = 2) (hag : cfg.aggregate = Agg.mean)
    (hpost : cfg.post_net = id)
    (hlen : (cfg.trial_net [0, 0]).length = cfg.latent_dim) :
    encode cfg (pad (iidTrialSet 5 [0, 0]) 10 fill)
        = Except.ok (cfg.trial_net [0, 0]) ∧
    encode cfg (pad (iidTrialSet 5 [0, 0]) 20 fill)
        = Except.ok (cfg.trial_net [0, 0]) := by
  have hwf : (iidTrialSet 5 [0, 0]).present.length
      = (iidTrialSet 5 [0, 0]).values.length := by simp [iidTrialSet]
  have hbase : encode cfg (iidTrialSet 5 [0, 0])
      = Except.ok (cfg.trial_net [0, 0]) := by
    rw [encode_iid_aux cfg 5 [0, 0] (by omega) (by rw [hfd]; rfl) hag hlen, hpost]
    rfl
  exact ⟨by rw [encode_pad_aux cfg _ 10 fill hwf, hbase],
         by rw [encode_pad_aux cfg _ 20 fill hwf, hbase]⟩

/-- C5. Zero-present-trials failure: an aggregator configured for mean
reduction, applied to a trial set whose presence mask reports zero present
trials, returns `InvalidInputError` rather than a numeric result. -/
theorem encode_zero_present_mean (cfg : EncoderConfig) (S : PaddedTrialSet)
    (hag : cfg.aggregate = Agg.mean) (h0 : countPresent S = 0) :
    encode cfg S = Except.error EncodeError.InvalidInputError :=
  encode_mean_zero_aux cfg S hag h0

/-- C6. Shape-mismatch failure: if some present trial's feature dimension
differs from the configured `feature_dim`, the encoder returns
`ShapeMismatchError`; the error is produced at input validation, before and
independently of the per-element and post-processing networks, and surfaces
unchanged. -/
theorem encode_shape_mismatch (cfg : EncoderConfig) (S : PaddedTrialSet)
    (v : List ℚ) (hw : S.present.length = S.values.length)
    (hv : v ∈ presentTrials S) (hlen : v.length ≠ cfg.feature_dim) :
    ∀ g p : List ℚ → List ℚ,
      encode { cfg with trial_net := g, post_net := p } S
        = Except.error EncodeError.ShapeMismatchError := by
  intro g p
  unfold encode
  rw [if_neg (by omega), if_pos]
  intro hall
  exact hlen (by simpa using List.all_eq_true.mp hall v hv)

/-- C7. Cardinality invariance: a well-formed, shape-valid trial set with at
least one present trial is accepted and produces a well-defined result, for
any count of present trials; mean aggregation with zero present trials is the
failing case, rejected with `InvalidInputError`. -/
theorem encode_cardinality (cfg : EncoderConfig) (S : PaddedTrialSet)
    (hw : S.present.length = S.values.length)
    (hshape : ∀ v ∈ presentTrials S, v.length = cfg.feature_dim) :
    (1 ≤ countPresent S → ∃ r, encode cfg S = Except.ok r) ∧
    (cfg.aggregate = Agg.mean → countPresent S = 0 →
      encode cfg S = Except.error EncodeError.InvalidInputError) := by
  constructor
  · intro hk
    refine ⟨cfg.post_net (pool cfg (countPresent S)
      ((presentTrials S).map cfg.trial_net)), ?_⟩
    rw [encode_eq_def cfg S hw,
        if_neg (by simp only [List.all_eq_true]; intro hnot
                   exact hnot fun v hv => by simp [hshape v hv]),
        if_neg (by rintro ⟨_, h0⟩; omega)]
  · exact fun hag h0 => encode_mean_zero_aux cfg S hag h0

/-- C8. Determinism and fixed output size: for fixed parameters, any two
evaluations of the encoder on the same trial set agree, and every successful
output is a vector of the fixed size determined by the post-processing
network. -/
theorem encode_deterministic (cfg : EncoderConfig) (S : PaddedTrialSet)
    (dOut : ℕ) (hpost : ∀ w, (cfg.post_net w).length = dOut) :
    (∀ r₁ r₂, encode cfg S = Except.ok r₁ → encode cfg S = Except.ok r₂ →
      r₁ = r₂) ∧
    (∀ r, encode cfg S = Except.ok r → r.length = dOut) := by
  constructor
  · intro r₁ r₂ h₁ h₂
    rw [h₁] at h₂
    exact Except.ok.inj h₂
  · intro r h
    unfold encode at h
    split_ifs at h
    all_goals rw [← Except.ok.inj h]; exact hpost _

/-- C9. Frame property: a forward evaluation is a pure function of the input
and the current parameters; it returns the embedding and leaves the encoder's
parameter state (the per-element and post-processing networks) unchanged. -/
theorem forwardEval_pure (cfg : EncoderConfig) (S : PaddedTrialSet) :
    (forwardEval cfg S).2 = cfg ∧ (forwardEval cfg S).1 = encode cfg S :=
  ⟨rfl, rfl⟩

/-! ### Concrete instances used to witness the claims -/

/-- A concrete encoder configuration with sum aggregation. -/
def cfgW : EncoderConfig :=
  { feature_dim := 2, latent_dim := 2
    trial_net := fun w => [w.getD 0 0 + w.getD 1 0, 1]
    aggregate := Agg.sum
    post_net := id }

/-- A concrete encoder configuration with mean aggregation. -/
def cfgM : EncoderConfig :=
  { feature_dim := 2, latent_dim := 2
    trial_net := fun w => [w.getD 0 0, w.getD 1 0]
    aggregate := Agg.mean
    post_net := id }

/-- A concrete encoder configuration whose post-processing network has a
fixed output size of 1. -/
def cfgF : EncoderConfig :=
  { feature_dim := 2, latent_dim := 2
    trial_net := fun w => [w.getD 0 0 + w.getD 1 0, 1]
    aggregate := Agg.sum
    post_net := fun w => [w.getD 0 0] }

def SW : PaddedTrialSet := { values := [[1, 2], [3, 4]], present := [true, true] }

def TW : PaddedTrialSet := { values := [[3, 4], [1, 2]], present := [true, true] }

def S3 : PaddedTrialSet := { values := [[1, 2], [9, 9]], present := [true, false] }

def T3 : PaddedTrialSet := { values := [[1, 2], [7, 7]], present := [true, false] }

def Sempty : PaddedTrialSet := { values := [[1, 2], [3, 4]], present := [false, false] }

def Sbad : PaddedTrialSet := { values := [[1, 2], [1, 2, 3]], present := [true, true] }

theorem encode_permutation_invariant_witness :
    encode cfgW SW = encode cfgW TW :=
  encode_permutation_invariant cfgW SW TW rfl rfl
    (List.Perm.swap ([3, 4], true) ([1, 2], true) [])

theorem encode_padding_invariant_witness :
    encode cfgW (pad SW 20 [5, 5]) = encode cfgW SW ∧
    encode cfgW (pad SW 20 [5, 5]) = encode cfgW (pad SW 10 [5, 5]) :=
  encode_padding_invariant cfgW SW 20 10 [5, 5] rfl

theorem encode_masking_correct_witness :
    encode cfgM S3 = encode cfgM T3 :=
  (encode_masking_correct cfgM S3 T3 rfl rfl rfl).1

theorem encode_iid_scenario_witness :
    encode cfgM (pad (iidTrialSet 5 [0, 0]) 10 [3, 3])
        = Except.ok (cfgM.trial_net [0, 0]) ∧
    encode cfgM (pad (iidTrialSet 5 [0, 0]) 20 [3, 3])
        = Except.ok (cfgM.trial_net [0, 0]) :=
  encode_iid_scenario cfgM [3, 3] rfl rfl rfl rfl

theorem encode_zero_present_mean_witness :
    encode cfgM Sempty = Except.error EncodeError.InvalidInputError :=
  encode_zero_present_mean cfgM Sempty rfl rfl

theorem encode_shape_mismatch_witness :
    encode { cfgW with trial_net := id, post_net := id } Sbad
      = Except.error EncodeError.ShapeMismatchError :=
  encode_shape_mismatch cfgW Sbad [1, 2, 3] rfl (by decide) (by decide) id id

theorem encode_cardinality_witness :
    ∃ r, encode cfgW SW = Except.ok r :=
  (encode_cardinality cfgW SW rfl (by decide)).1 (by decide)

theorem encode_deterministic_witness :
    encode cfgF SW = Except.ok [10] ∧ ([10] : List ℚ).length = 1 := by
  have h : encode cfgF SW = Except.ok [10] := by
    simp [encode, cfgF, SW, presentTrials, countPresent, pool, vecSum, vecScale,
          List.range_succ]
    norm_num
  exact ⟨h, (encode_deterministic cfgF SW 1 (fun w => rfl)).2 [10] h⟩

end SetEncoder

namespace TrainingData

/-!
### The notebook's training-data construction

Translation of the cell of
`tutorials/14_iid_data_and_permutation_invariant_embeddings.ipynb` that builds
the training tensor:

    x = torch.ones(num_training_samples * max_num_trials, max_num_trials, x_dim) * float("nan")
    for i in range(num_training_samples):
        xi = simulator(theta[i].repeat(max_num_trials, 1))
        for j in range(max_num_trials):
            x[i * max_num_trials + j, : j + 1, :] = xi[: j + 1, :]
    theta = theta.repeat_interleave(max_num_trials, dim=0)

A trial slot of the tensor is `Option (List ℚ)`: `none` is the NaN fill,
`some v` an actual simulator output.  `simOut i` is the list
`simulator(theta[i].repeat(max_num_trials, 1))` of per-trial outputs for the
`i`-th sampled parameter.
-/

/-- One all-NaN row of the training tensor: `maxT` absent trial slots. -/
def nanRow (maxT : ℕ) : List (Option (List ℚ)) :=
  List.replicate maxT none

/-- The slice assignment `row[: len, :] = src[: len, :]`. -/
def assignHead (src : List (List ℚ)) (len : ℕ) (row : List (Option (List ℚ))) :
    List (Option (List ℚ)) :=
  (src.take len).map some ++ row.drop len

/-- The inner loop `for j in range(n): x[base + j, : j + 1, :] = xi[: j + 1, :]`
(in the notebook `n = max_num_trials` and `base = i * max_num_trials`). -/
def writeLoop (xi : List (List ℚ)) (base n : ℕ)
    (x : List (List (Option (List ℚ)))) : List (List (Option (List ℚ))) :=
  (List.range n).foldl
    (fun acc j => acc.set (base + j) (assignHead xi (j + 1) (acc.getD (base + j) [])))
    x

/-- The notebook's training-tensor construction: an all-NaN tensor of
`n * maxT` rows, then the nested loop writing row `i * maxT + j`. -/
def buildX (n maxT : ℕ) (simOut : ℕ → List (List ℚ)) :
    List (List (Option (List ℚ))) :=
  (List.range n).foldl
    (fun acc i => writeLoop (simOut i) (i * maxT) maxT acc)
    (List.replicate (n * maxT) (nanRow maxT))

/-- `theta.repeat_interleave(m, dim=0)`: each row repeated `m` times in place. -/
def repeatInterleave {α : Type} (l : List α) (m : ℕ) : List α :=
  l.flatMap (fun a => List.replicate m a)

/-- The row content the claim describes: the first `j + 1` simulator outputs in
positions `0 .. j` and NaN in all remaining positions. -/
def expectedRow (maxT : ℕ) (xi : List (List ℚ)) (j : ℕ) : List (Option (List ℚ)) :=
  (xi.take (j + 1)).map some ++ List.replicate (maxT - (j + 1)) none

/-- The number of present (non-NaN) trial slots of a row. -/
def countPresentRow (row : List (Option (List ℚ))) : ℕ :=
  (row.filter (fun o => o.isSome)).length

/-! ### Lemmas about the construction -/

theorem assignHead_nanRow (maxT : ℕ) (xi : List (List ℚ)) (len : ℕ) :
    assignHead xi len (nanRow maxT)
      = (xi.take len).map some ++ List.replicate (maxT - len) none := by
  unfold assignHead nanRow
  rw [List.drop_replicate]

theorem writeLoop_succ (xi : List (List ℚ)) (base n : ℕ)
    (x : List (List (Option (List ℚ)))) :
    writeLoop xi base (n + 1) x
      = (writeLoop xi base n x).set (base + n)
          (assignHead xi (n + 1) ((writeLoop xi base n x).getD (base + n) [])) := by
  unfold writeLoop
  rw [List.range_succ, List.foldl_append]
  rfl

/-- Effect of the inner loop on a region of all-NaN rows: row `base + j` gets
the first `j + 1` outputs of `xi`, every other row is untouched. -/
theorem writeLoop_spec (maxT : ℕ) (xi : List (List ℚ)) (base : ℕ) :
    ∀ (n : ℕ) (x : List (List (Option (List ℚ)))),
      (∀ j, j < n → x[base + j]? = some (nanRow maxT)) →
      (∀ j, j < n → (writeLoop xi base n x)[base + j]?
          = some (expectedRow maxT xi j)) ∧
      (∀ k, (∀ j, j < n → k ≠ base + j) →
          (writeLoop xi base n x)[k]? = x[k]?) := by
  intro n
  induction n with
  | zero =>
    exact fun x _ => ⟨fun j hj => absurd hj (by omega), fun k _ => rfl⟩
  | succ n ih =>
    intro x hrow
    obtain ⟨ih1, ih2⟩ := ih x (fun j hj => hrow j (by omega))
    have hprev : (writeLoop xi base n x)[base + n]?
        = some (nanRow maxT) := by
      rw [ih2 (base + n) (fun j hj => by omega)]
      exact hrow n (by omega)
    have hlt : base + n < (writeLoop xi base n x).length :=
      (List.getElem?_eq_some.mp hprev).1
    have hgetD : (writeLoop xi base n x).getD (base + n) [] = nanRow maxT := by
      rw [List.getD_eq_getElem?_getD, hprev]
      rfl
    constructor
    · intro j hj
      rw [writeLoop_succ, hgetD]
      by_cases hje : j = n
      · subst hje
        rw [List.getElem?_set_eq_of_lt _ hlt, assignHead_nanRow]
        rfl
      · rw [List.getElem?_set_ne (by omega)]
        exact ih1 j (by omega)
    · intro k hk
      rw [writeLoop_succ, hgetD,
          List.getElem?_set_ne (fun heq => hk n (by omega) heq.symm)]
      exact ih2 k (fun j hj => hk j (by omega))

/-- The outer loop after `n` iterations, starting from the all-NaN tensor of
`N * maxT` rows. -/
def buildLoop (N maxT : ℕ) (simOut : ℕ → List (List ℚ)) (n : ℕ) :
    List (List (Option (List ℚ))) :=
  (List.range n).foldl
    (fun acc i => writeLoop (simOut i) (i * maxT) maxT acc)
    (List.replicate (N * maxT) (nanRow maxT))

theorem buildLoop_succ (N maxT : ℕ) (simOut : ℕ → List (List ℚ)) (n : ℕ) :
    buildLoop N maxT simOut (n + 1)
      = writeLoop (simOut n) (n * maxT) maxT (buildLoop N maxT simOut n) := by
  unfold buildLoop
  rw [List.range_succ, List.foldl_append]
  rfl

theorem buildX_eq_buildLoop (N maxT : ℕ) (simOut : ℕ → List (List ℚ)) :
    buildX N maxT simOut = buildLoop N maxT simOut N :=
  rfl

/-- Invariant of the outer loop: after `n ≤ N` iterations, rows below
`n * maxT` carry their final content and all later rows are untouched. -/
theorem buildLoop_spec (N maxT : ℕ) (simOut : ℕ → List (List ℚ)) :
    ∀ n, n ≤ N →
      (∀ i j, i < n → j < maxT →
        (buildLoop N maxT simOut n)[i * maxT + j]?
          = some (expectedRow maxT (simOut i) j)) ∧
      (∀ k, n * maxT ≤ k →
        (buildLoop N maxT simOut n)[k]?
          = (List.replicate (N * maxT) (nanRow maxT))[k]?) := by
  intro n
  induction n with
  | zero =>
    exact fun _ => ⟨fun i j hi => absurd hi (by omega), fun k _ => rfl⟩
  | succ n ih =>
    intro hn
    obtain ⟨ih1, ih2⟩ := ih (by omega)
    have hbound : ∀ j, j < maxT → n * maxT + j < N * maxT := by
      intro j hj
      have h1 : n * maxT + j < (n + 1) * maxT := by rw [add_one_mul]; omega
      have h2 : (n + 1) * maxT ≤ N * maxT := Nat.mul_le_mul_right maxT hn
      omega
    have hrow : ∀ j, j < maxT →
        (buildLoop N maxT simOut n)[n * maxT + j]? = some (nanRow maxT) := by
      intro j hj
      rw [ih2 (n * maxT + j) (by omega), List.getElem?_replicate,
          if_pos (hbound j hj)]
    obtain ⟨w1, w2⟩ :=
      writeLoop_spec maxT (simOut n) (n * maxT) maxT (buildLoop N maxT simOut n) hrow
    constructor
    · intro i j hi hj
      rw [buildLoop_succ]
      by_cases hie : i = n
      · subst hie
        exact w1 j hj
      · have hi' : i < n := by omega
        have hlt : i * maxT + j < n * maxT := by
          have h1 : i * maxT + j < (i + 1) * maxT := by rw [add_one_mul]; omega
          have h2 : (i + 1) * maxT ≤ n * maxT := Nat.mul_le_mul_right maxT hi'
          omega
        rw [w2 (i * maxT + j) (fun j' hj' => by omega)]
        exact ih1 i j hi' hj
    · intro k hk
      have h2 : n * maxT + maxT = (n + 1) * maxT := (add_one_mul n maxT).symm
      rw [buildLoop_succ, w2 k (fun j' hj' => by omega)]
      exact ih2 k (by omega)

/-- `repeat_interleave` pairs row `k` with original row `⌊k / m⌋`. -/
theorem repeatInterleave_spec {α : Type} (m : ℕ) (hm : 0 < m) :
    ∀ (l : List α) (k : ℕ), (repeatInterleave l m)[k]? = l[k / m]? := by
  intro l
  induction l with
  | nil =>
    intro k
    simp [repeatInterleave]
  | cons a t ih =>
    intro k
    unfold repeatInterleave
    rw [List.flatMap_cons, List.getElem?_append, List.length_replicate]
    by_cases hk : k < m
    · rw [if_pos hk, List.getElem?_replicate, if_pos hk, Nat.div_eq_of_lt hk,
          List.getElem?_cons_zero]
    · push_neg at hk
      rw [if_neg (by omega)]
      have hih := ih (k - m)
      unfold repeatInterleave at hih
      rw [hih]
      have hdiv : k / m = (k - m) / m + 1 := by
        conv_lhs => rw [← Nat.sub_add_cancel hk]
        rw [Nat.add_div_right _ hm]
      rw [hdiv, List.getElem?_cons_succ]

/-- The described row content has exactly `j + 1` present (non-NaN) slots. -/
theorem countPresentRow_expectedRow (maxT : ℕ) (xi : List (List ℚ)) (j : ℕ)
    (hxi : j + 1 ≤ xi.length) :
    countPresentRow (expectedRow maxT xi j) = j + 1 := by
  unfold countPresentRow expectedRow
  rw [List.filter_append, List.filter_replicate,
      List.filter_eq_self.mpr (fun o ho => by
        rcases List.mem_map.mp ho with ⟨v, _, rfl⟩
        rfl)]
  simp [List.length_take]
  omega

/-- C10. The notebook's training-data construction: for every `i < N` and
`j < maxT`, row `i * maxT + j` of the tensor `x` holds the first `j + 1`
simulator outputs for parameter `theta[i]` in positions `0 .. j` and NaN in
all remaining positions; `theta.repeat_interleave(maxT)` pairs row `k` with
original parameter `⌊k / maxT⌋`; and each such row has exactly `j + 1`
present trials, so every row has at least one present trial and every trial
count from `1` to `maxT` occurs for every sampled parameter. -/
theorem trainingData_construction (N maxT : ℕ) (simOut : ℕ → List (List ℚ))
    (theta : List (List ℚ)) (hm : 0 < maxT)
    (hsim : ∀ i, i < N → (simOut i).length = maxT) :
    (∀ i j, i < N → j < maxT →
      (buildX N maxT simOut)[i * maxT + j]?
        = some (expectedRow maxT (simOut i) j)) ∧
    (∀ k, (repeatInterleave theta maxT)[k]? = theta[k / maxT]?) ∧
    (∀ i j, i < N → j < maxT →
      countPresentRow (expectedRow maxT (simOut i) j) = j + 1) := by
  refine ⟨?_, repeatInterleave_spec maxT hm theta, ?_⟩
  · intro i j hi hj
    rw [buildX_eq_buildLoop]
    exact (buildLoop_spec N maxT simOut N le_rfl).1 i j hi hj
  · intro i j hi hj
    exact countPresentRow_expectedRow maxT (simOut i) j (by rw [hsim i hi]; omega)

/-- A concrete two-parameter, three-trial simulator output table. -/
def simOutW : ℕ → List (List ℚ) :=
  fun i => [[(i : ℚ), 0], [(i : ℚ), 1], [(i : ℚ), 2]]

theorem trainingData_construction_witness :
    (buildX 2 3 simOutW)[1 * 3 + 1]? = some (expectedRow 3 (simOutW 1) 1) :=
  (trainingData_construction 2 3 simOutW [[0], [1]] (by omega)
    (fun i _ => rfl)).1 1 1 (by omega) (by omega)

end TrainingData
